import Mathlib

/-!
Verification development for the span-tracking rule-language layer
(`semgrep/rule_lang.py`): a content-addressed source registry
(`SourceTracker`), an immutable position/span algebra (`Position`, `Span`),
and a span-annotated parse-tree representation (`YamlTree`, `YamlMap`)
with `wrap`/`unroll` conversions to and from plain nested values.

Python `int` is modelled as `Int`, Python `str` as `String`, dictionaries as
ordered association lists (which is what CPython dictionaries observably
are), and raised exceptions as `Except` errors.
-/

set_option maxRecDepth 4096

namespace RuleLang

/-! ## SHA-256 (models `hashlib.sha256(...).hexdigest()`)

`SourceTracker._src_to_hash` delegates to the standard SHA-256; we embed the
full FIPS 180-4 algorithm over `Nat` with explicit reduction modulo `2^32`.
Bytes are `Nat` values below 256. -/

/-- Reduce a machine word modulo `2^32`. -/
def w32 (x : Nat) : Nat := x % 4294967296

/-- Right rotation of a 32-bit word. -/
def rotr32 (x n : Nat) : Nat := w32 ((x >>> n) ||| (x <<< (32 - n)))

def bigSigma0 (x : Nat) : Nat := rotr32 x 2 ^^^ rotr32 x 13 ^^^ rotr32 x 22

def bigSigma1 (x : Nat) : Nat := rotr32 x 6 ^^^ rotr32 x 11 ^^^ rotr32 x 25

def smallSigma0 (x : Nat) : Nat := rotr32 x 7 ^^^ rotr32 x 18 ^^^ (x >>> 3)

def smallSigma1 (x : Nat) : Nat := rotr32 x 17 ^^^ rotr32 x 19 ^^^ (x >>> 10)

/-- The 64 SHA-256 round constants (FIPS 180-4, in decimal). -/
def sha256K : List Nat :=
  [1116352408, 1899447441, 3049323471, 3921009573, 961987163,
   1508970993, 2453635748, 2870763221, 3624381080, 310598401,
   607225278, 1426881987, 1925078388, 2162078206, 2614888103,
   3248222580, 3835390401, 4022224774, 264347078, 604807628,
   770255983, 1249150122, 1555081692, 1996064986, 2554220882,
   2821834349, 2952996808, 3210313671, 3336571891, 3584528711,
   113926993, 338241895, 666307205, 773529912, 1294757372,
   1396182291, 1695183700, 1986661051, 2177026350, 2456956037,
   2730485921, 2820302411, 3259730800, 3345764771, 3516065817,
   3600352804, 4094571909, 275423344, 430227734, 506948616,
   659060556, 883997877, 958139571, 1322822218, 1537002063,
   1747873779, 1955562222, 2024104815, 2227730452, 2361852424,
   2428436474, 2756734187, 3204031479, 3329325298]

/-- The SHA-256 initial hash value (FIPS 180-4, in decimal). -/
def sha256H0 : List Nat :=
  [1779033703, 3144134277, 1013904242, 2773480762,
   1359893119, 2600822924, 528734635, 1541459225]

/-- Extend a 16-word block by one scheduled word. -/
def scheduleStep (ws : List Nat) : List Nat :=
  let n := ws.length
  ws ++ [w32 (smallSigma1 (ws.getD (n - 2) 0) + ws.getD (n - 7) 0 +
              smallSigma0 (ws.getD (n - 15) 0) + ws.getD (n - 16) 0)]

/-- The full 64-word message schedule of a 16-word block. -/
def fullSchedule (ws : List Nat) : List Nat :=
  (List.range 48).foldl (fun acc _ => scheduleStep acc) ws

/-- One round of the SHA-256 compression function on state
`[a, b, c, d, e, f, g, h]` with round constant and scheduled word `kw`. -/
def compressStep (st : List Nat) (kw : Nat × Nat) : List Nat :=
  match st with
  | [a, b, c, d, e, f, g, h] =>
    let ch := (e &&& f) ^^^ ((0xffffffff ^^^ e) &&& g)
    let t1 := w32 (h + bigSigma1 e + ch + kw.1 + kw.2)
    let maj := (a &&& b) ^^^ (a &&& c) ^^^ (b &&& c)
    let t2 := w32 (bigSigma0 a + maj)
    [w32 (t1 + t2), a, b, c, w32 (d + t1), e, f, g]
  | other => other

/-- Process one 16-word block, updating the running hash. -/
def processBlock (h : List Nat) (block : List Nat) : List Nat :=
  let ws := fullSchedule block
  let st := (sha256K.zip ws).foldl compressStep h
  (h.zip st).map (fun p => w32 (p.1 + p.2))

/-- A `Nat` as 8 big-endian bytes. -/
def bigEndian8 (n : Nat) : List Nat :=
  [(n >>> 56) &&& 255, (n >>> 48) &&& 255, (n >>> 40) &&& 255,
   (n >>> 32) &&& 255, (n >>> 24) &&& 255, (n >>> 16) &&& 255,
   (n >>> 8) &&& 255, n &&& 255]

/-- SHA-256 padding: append `0x80`, zero bytes, and the 64-bit bit length,
reaching a multiple of 64 bytes. -/
def padMessage (msg : List Nat) : List Nat :=
  let zeros := (64 - ((msg.length + 9) % 64)) % 64
  msg ++ [0x80] ++ List.replicate zeros 0 ++ bigEndian8 (msg.length * 8)

/-- Big-endian grouping of bytes into 32-bit words. -/
def bytesToWords : List Nat → List Nat
  | b0 :: b1 :: b2 :: b3 :: rest =>
    ((b0 <<< 24) ||| (b1 <<< 16) ||| (b2 <<< 8) ||| b3) :: bytesToWords rest
  | _ => []

def toBlocksAux : Nat → List Nat → List (List Nat)
  | 0, _ => []
  | _, [] => []
  | fuel + 1, ws => ws.take 16 :: toBlocksAux fuel (ws.drop 16)

/-- Split a word sequence into 16-word blocks. -/
def toBlocks (ws : List Nat) : List (List Nat) := toBlocksAux ws.length ws

/-- SHA-256 of a byte sequence, as 8 32-bit words. -/
def sha256Words (msg : List Nat) : List Nat :=
  (toBlocks (bytesToWords (padMessage msg))).foldl processBlock sha256H0

def hexDigit (n : Nat) : Char :=
  Char.ofNat (if n < 10 then 48 + n else 87 + n)

/-- A 32-bit word as 8 lowercase hex digits. -/
def toHex8 (w : Nat) : List Char :=
  (List.range 8).map (fun i => hexDigit ((w >>> ((7 - i) * 4)) &&& 15))

/-- The lowercase hex digest of the SHA-256 of a byte sequence. -/
def sha256hex (msg : List Nat) : String :=
  String.mk ((sha256Words msg).foldr (fun w acc => toHex8 w ++ acc) [])

/-! ## UTF-8 encoding (models Python `str.encode("utf-8")`) -/

/-- UTF-8 encoding of a single code point. -/
def utf8EncodeChar (c : Nat) : List Nat :=
  if c < 0x80 then [c]
  else if c < 0x800 then
    [0xc0 ||| (c >>> 6), 0x80 ||| (c &&& 0x3f)]
  else if c < 0x10000 then
    [0xe0 ||| (c >>> 12), 0x80 ||| ((c >>> 6) &&& 0x3f), 0x80 ||| (c &&& 0x3f)]
  else
    [0xf0 ||| (c >>> 18), 0x80 ||| ((c >>> 12) &&& 0x3f),
     0x80 ||| ((c >>> 6) &&& 0x3f), 0x80 ||| (c &&& 0x3f)]

/-- UTF-8 byte encoding of a string. -/
def utf8Bytes (s : String) : List Nat :=
  s.data.foldr (fun c acc => utf8EncodeChar c.toNat ++ acc) []

/-! ## `str.splitlines` (used by `SourceTracker.add_source`) -/

/-- Python line-break characters other than `\r` and `\n`
(`\v`, `\f`, FS, GS, RS, NEL, LINE SEPARATOR, PARAGRAPH SEPARATOR). -/
def isOtherLineBreak (c : Char) : Bool :=
  c.toNat == 0x0b || c.toNat == 0x0c || c.toNat == 0x1c || c.toNat == 0x1d ||
  c.toNat == 0x1e || c.toNat == 0x85 || c.toNat == 0x2028 || c.toNat == 0x2029

def splitlinesAux : List Char → List Char → List String
  | [], acc => if acc.isEmpty then [] else [String.mk acc.reverse]
  | '\r' :: '\n' :: rest, acc => String.mk acc.reverse :: splitlinesAux rest []
  | c :: rest, acc =>
    if c == '\r' || c == '\n' || isOtherLineBreak c then
      String.mk acc.reverse :: splitlinesAux rest []
    else
      splitlinesAux rest (c :: acc)

/-- Python `str.splitlines()`: split on line breaks, terminators stripped;
`\r\n` counts as a single break and a trailing break adds no empty line. -/
def splitlines (s : String) : List String := splitlinesAux s.data []

/-! ## SourceTracker

The Python class keeps its `sources` dictionary as class-level mutable
state; we pass that dictionary explicitly as a `SrcState` value (an ordered
association list from hash to lines, which is CPython's observable
dictionary behaviour: assignment replaces in place when the key exists and
appends otherwise). -/

/-- The `SourceTracker.sources` dictionary: file hash to stored lines. -/
def SrcState : Type := List (String × List String)

/-- CPython dictionary assignment `d[k] = v` on an ordered association
list: replace the value at an existing key in place, else append. -/
def dictSet : List (String × List String) → String → List String →
    List (String × List String)
  | [], k, v => [(k, v)]
  | (k', v') :: rest, k, v =>
    if k' == k then (k', v) :: rest else (k', v') :: dictSet rest k v

/-- Dictionary lookup on the association list. -/
def dictFind : List (String × List String) → String → Option (List String)
  | [], _ => none
  | (k', v') :: rest, k => if k' == k then some v' else dictFind rest k

/-- The registry lookup can fail with a `KeyError` (the *LookupFailure* of
the specification), carrying the missing hash. -/
inductive RegistryError where
  | keyError (hash : String)
deriving DecidableEq

namespace SourceTracker

/-- `SourceTracker._src_to_hash`: SHA-256 hex digest of the UTF-8 bytes. -/
def src_to_hash (contents : String) : String :=
  sha256hex (utf8Bytes contents)

/-- `SourceTracker.add_source`: hash the text, store its split lines under
the hash, return the hash. The ambient class state is passed and returned
explicitly. -/
def add_source (st : SrcState) (source : String) : String × SrcState :=
  let file_hash := src_to_hash source
  (file_hash, dictSet st file_hash (splitlines source))

/-- `SourceTracker.source`: look up the stored lines; raises `KeyError`
when the hash was never registered. -/
def source (st : SrcState) (source_hash : String) :
    Except RegistryError (List String) :=
  match dictFind st source_hash with
  | some lines => .ok lines
  | none => .error (.keyError source_hash)

end SourceTracker

/-! ## Position and Span -/

/-- `Position`: a line/column coordinate. Python integers are unbounded
and may be negative, so both fields are `Int`. -/
structure Position where
  line : Int
  col : Int
deriving DecidableEq

/-- `Position.next_line`. -/
def Position.next_line (p : Position) : Position :=
  { p with line := p.line + 1 }

/-- `Position.previous_line`. -/
def Position.previous_line (p : Position) : Position :=
  { p with line := p.line - 1 }

/-- `Span`: a segment of code between two positions, tied to a source hash
and optional filename, with an optional surrounding context range. -/
structure Span where
  start : Position
  end_ : Position
  source_hash : String
  file : Option String
  context_start : Option Position := none
  context_end : Option Position := none
deriving DecidableEq

namespace Span

/-- `Span.from_node`: build a Span from a raw node's 0-indexed start/end
marks (the only data of the external parser's `Node` this layer reads),
converting to 1-indexed coordinates. -/
def from_node (startLine startCol endLine endCol : Int)
    (source_hash : String) (filename : Option String) : Span :=
  { start := { line := startLine + 1, col := startCol + 1 }
    end_ := { line := endLine + 1, col := endCol + 1 }
    source_hash := source_hash
    file := filename }

/-- `Span.truncate`: cap the span at `lines` lines from the start line,
clearing any trailing context when truncation happens. -/
def truncate (s : Span) (lines : Int) : Span :=
  if s.end_.line - s.start.line > lines then
    { s with end_ := { line := s.start.line + lines, col := 0 },
             context_end := none }
  else s

/-- `Span.extend_to`: extend this span as far as `span`; with
`context_only` the extension is recorded only as context. Python's
`span.context_end or span.end` is `None`-coalescing here since a
`Position` object is always truthy. -/
def extend_to (s span : Span) (context_only : Bool) : Span :=
  if context_only then
    { s with context_end := some (span.context_end.getD span.end_) }
  else
    { s with end_ := span.end_, context_end := span.context_end }

/-- `Span.with_context`: widen the context by `before` lines above and
`after` lines below; the `after` bound consults the source registry for the
total line count and propagates its `KeyError` when the hash is missing. -/
def with_context (st : SrcState) (s : Span)
    (before after : Option Int) : Except RegistryError Span :=
  let new := match before with
    | some b =>
      { s with context_start := some { col := 0, line := max 0 (s.start.line - b) } }
    | none => s
  match after with
  | some a => do
    let lines ← SourceTracker.source st s.source_hash
    pure { new with
           context_end := some { col := 0, line := min (lines.length : Int) (s.end_.line + a) } }
  | none => pure new

end Span

/-! ## Plain values and the annotated tree

`PyValue` models the plain Python values flowing through this layer:
strings, integers, lists, string-keyed dictionaries (as ordered
association lists, which is what CPython dictionaries observably are), and
`None` as a representative of values outside the supported shapes (the
`YamlValue` union in the source).

`YamlTree` models a `YamlTree` object: a value paired with a `Span`; each
constructor is one runtime shape the `value` slot can hold. `lmap` entries
carry a `Nat` object identity for the key tree, because the Python
`YamlMap` wraps a `dict` keyed by `YamlTree` objects, which hash and
compare by identity. `ltree` is a `YamlTree` whose value is itself a
`YamlTree` (dynamically possible; `unroll` handles it). -/

inductive PyValue where
  | vstr (s : String)
  | vint (n : Int)
  | vlist (xs : List PyValue)
  | vdict (xs : List (String × PyValue))
  | vnone

inductive YamlTree where
  | lstr (s : String) (span : Span)
  | lint (n : Int) (span : Span)
  | llist (xs : List YamlTree) (span : Span)
  | lmap (entries : List (Nat × YamlTree × YamlTree)) (span : Span)
  | ltree (t : YamlTree) (span : Span)
  | lnone (span : Span)

/-- The `span` slot of a `YamlTree` node. -/
def YamlTree.span : YamlTree → Span
  | .lstr _ sp => sp
  | .lint _ sp => sp
  | .llist _ sp => sp
  | .lmap _ sp => sp
  | .ltree _ sp => sp
  | .lnone sp => sp

/-- Python's `k.value == key` for a key tree `k` and a string `key`:
equality holds only when the value is a string equal to `key` (in Python,
`==` between a string and any non-string value here is `False`). -/
def YamlTree.valEqStr : YamlTree → String → Bool
  | .lstr s _, key => s == key
  | _, _ => false

/-! ## Python `str()` of an unrolled value

`unroll` passes every mapping key through `str(...)`. Strings pass
through; integers print in decimal; `None` prints as `None`; lists and
dictionaries print via `repr` (string elements quoted — CPython's switch
to double quotes for strings containing a quote is not reproduced, and no
claim exercises it). -/

mutual

def pyRepr : PyValue → String
  | .vstr s => "\x27" ++ s ++ "\x27"
  | .vint n => toString n
  | .vnone => "None"
  | .vlist xs => "[" ++ pyReprList xs ++ "]"
  | .vdict xs => "\x7b" ++ pyReprPairs xs ++ "\x7d"

def pyReprList : List PyValue → String
  | [] => ""
  | [x] => pyRepr x
  | x :: rest => pyRepr x ++ ", " ++ pyReprList rest

def pyReprPairs : List (String × PyValue) → String
  | [] => ""
  | [(k, v)] => "\x27" ++ k ++ "\x27: " ++ pyRepr v
  | (k, v) :: rest => "\x27" ++ k ++ "\x27: " ++ pyRepr v ++ ", " ++ pyReprPairs rest

end

/-- Python `str(...)` on a plain value. -/
def pyStr : PyValue → String
  | .vstr s => s
  | v => pyRepr v

/-! ## YamlMap -/

/-- The `_internal` dictionary of a `YamlMap`: ordered entries of
(key-object identity, key tree, value tree). -/
abbrev YamlMap := List (Nat × YamlTree × YamlTree)

namespace YamlMap

/-- `YamlMap.items()`: the ordered (key tree, value tree) pairs. -/
def items (m : YamlMap) : List (YamlTree × YamlTree) :=
  m.map (fun e => (e.2.1, e.2.2))

/-- `YamlMap.keys()`: the ordered key trees. -/
def keysView (m : YamlMap) : List YamlTree :=
  m.map (fun e => e.2.1)

/-- `YamlMap.get`: collect the values of all entries whose key's value
equals `key` and return the first, `none` when there is no match. -/
def get (m : YamlMap) (key : String) : Option YamlTree :=
  ((m.filter (fun e => e.2.1.valEqStr key)).map (fun e => e.2.2)).head?

/-- `YamlMap.key_tree`: the first key tree whose value equals `key`;
the Python generator's `StopIteration` on no match is `none` here. -/
def key_tree (m : YamlMap) (key : String) : Option YamlTree :=
  ((m.filter (fun e => e.2.1.valEqStr key)).map (fun e => e.2.1)).head?

/-- `YamlMap.__setitem__`: CPython dictionary assignment keyed by the key
tree's object identity — replace the value in place when an entry with the
same key object exists, append a fresh entry otherwise. -/
def setitem : YamlMap → Nat → YamlTree → YamlTree → YamlMap
  | [], i, k, v => [(i, k, v)]
  | e :: rest, i, k, v =>
    if e.1 == i then (e.1, e.2.1, v) :: rest else e :: setitem rest i k v

end YamlMap

/-! ## unroll and wrap -/

/-- CPython dictionary insertion `d[k] = v` for the dictionary built by
`unroll`'s comprehension: an existing key keeps its position and gets the
new value, a new key is appended. -/
def dictInsert : List (String × PyValue) → String → PyValue →
    List (String × PyValue)
  | [], k, v => [(k, v)]
  | (k', v') :: rest, k, v =>
    if k' == k then (k', v) :: rest else (k', v') :: dictInsert rest k v

mutual

/-- `YamlTree.unroll`: recursively strip spans back to a plain value. A
mapping yields a dictionary keyed by `str(...)` of each key's unrolled
value; a value shape outside the supported set raises
`ValueError("Invalid YAML tree structure")` (the *MalformedTree* failure). -/
def YamlTree.unroll : YamlTree → Except String PyValue
  | .llist xs _ => do pure (.vlist (← unrollList xs))
  | .lmap entries _ => do
    let pairs ← unrollPairs entries
    pure (.vdict (pairs.foldl (fun d p => dictInsert d p.1 p.2) []))
  | .ltree t _ => t.unroll
  | .lstr s _ => .ok (.vstr s)
  | .lint n _ => .ok (.vint n)
  | .lnone _ => .error "Invalid YAML tree structure"

def unrollList : List YamlTree → Except String (List PyValue)
  | [] => .ok []
  | x :: xs => do
    let v ← x.unroll
    let vs ← unrollList xs
    pure (v :: vs)

def unrollPairs : List (Nat × YamlTree × YamlTree) →
    Except String (List (String × PyValue))
  | [] => .ok []
  | (_, k, v) :: rest => do
    let ku ← k.unroll
    let vu ← v.unroll
    let restPairs ← unrollPairs rest
    pure ((pyStr ku, vu) :: restPairs)

end

mutual

/-- `YamlTree.wrap`: wrap a plain value, stamping `span` on every node
produced (keys included). Lists and dictionaries recurse; every other
value — supported scalar or not — falls to the final `else` branch and
becomes a leaf carrying the value unchanged, so `wrap` never fails and
defers all shape checking to `unroll`. The source's pass-through branch
for a value that is already a `YamlTree` is not representable in
`PyValue`, which models plain values only. Dictionary keys are strings, so
wrapping a key yields the string leaf directly; the key objects created by
the comprehension are pairwise fresh, rendered here as positional
identities. -/
def YamlTree.wrap : PyValue → Span → YamlTree
  | .vlist xs, span => .llist (wrapList xs span) span
  | .vdict xs, span => .lmap (wrapPairs xs span 0) span
  | .vstr s, span => .lstr s span
  | .vint n, span => .lint n span
  | .vnone, span => .lnone span

def wrapList : List PyValue → Span → List YamlTree
  | [], _ => []
  | x :: xs, span => YamlTree.wrap x span :: wrapList xs span

def wrapPairs : List (String × PyValue) → Span → Nat →
    List (Nat × YamlTree × YamlTree)
  | [], _, _ => []
  | (k, v) :: rest, span, i =>
    (i, .lstr k span, YamlTree.wrap v span) :: wrapPairs rest span (i + 1)

end

/-! ## Well-formed plain values -/

/-- Membership of a key among a list of keys. -/
def hasKey : List String → String → Bool
  | [], _ => false
  | x :: xs, k => x == k || hasKey xs k

/-- Pairwise-distinct keys. -/
def nodupKeys : List String → Bool
  | [] => true
  | k :: ks => !hasKey ks k && nodupKeys ks

mutual

/-- A plain value built only from the supported shapes: strings, integers,
lists, and string-keyed dictionaries, arbitrarily nested. A Python
dictionary cannot hold duplicate keys, so a well-formed plain mapping has
pairwise-distinct keys. -/
def PyValue.isPlain : PyValue → Bool
  | .vstr _ => true
  | .vint _ => true
  | .vnone => false
  | .vlist xs => plainList xs
  | .vdict xs => nodupKeys (xs.map (fun p => p.1)) && plainPairs xs

def plainList : List PyValue → Bool
  | [] => true
  | x :: xs => x.isPlain && plainList xs

def plainPairs : List (String × PyValue) → Bool
  | [] => true
  | (_, v) :: xs => v.isPlain && plainPairs xs

end

/-! ## Basic lemmas -/

theorem dictFind_dictSet_self (st : List (String × List String)) (k : String)
    (v : List String) : dictFind (dictSet st k v) k = some v := by
  induction st with
  | nil => simp [dictSet, dictFind]
  | cons e rest ih =>
    by_cases h : e.1 == k <;> simp [dictSet, dictFind, h, ih]

theorem dictSet_idem (st : List (String × List String)) (k : String)
    (v : List String) : dictSet (dictSet st k v) k v = dictSet st k v := by
  induction st with
  | nil => simp [dictSet]
  | cons e rest ih =>
    by_cases h : e.1 == k <;> simp [dictSet, h, ih]

/-- C7: registering the same text twice yields the same hash (the SHA-256
hex digest of its UTF-8 bytes) both times, `source` returns the split
lines after either call, and the second registration leaves the registry
state unchanged. -/
theorem registry_stability (st : SrcState) (s : String) :
    (SourceTracker.add_source st s).1 = SourceTracker.src_to_hash s ∧
    (SourceTracker.add_source (SourceTracker.add_source st s).2 s).1 =
      (SourceTracker.add_source st s).1 ∧
    SourceTracker.source (SourceTracker.add_source st s).2
      (SourceTracker.add_source st s).1 = .ok (splitlines s) ∧
    SourceTracker.source (SourceTracker.add_source (SourceTracker.add_source st s).2 s).2
      (SourceTracker.add_source (SourceTracker.add_source st s).2 s).1 =
      .ok (splitlines s) ∧
    (SourceTracker.add_source (SourceTracker.add_source st s).2 s).2 =
      (SourceTracker.add_source st s).2 := by
  refine ⟨rfl, rfl, ?_, ?_, ?_⟩
  · simp [SourceTracker.add_source, SourceTracker.source, dictFind_dictSet_self]
  · simp [SourceTracker.add_source, SourceTracker.source, dictFind_dictSet_self]
  · simp [SourceTracker.add_source, dictSet_idem]

/-- C6: `source` fails with the `KeyError` lookup failure exactly on
unregistered hashes; `with_context` propagates that failure when `after`
is given over an unregistered hash, while `with_context` with only
`before` never consults the registry and always succeeds. -/
theorem lookup_failure_spec :
    (∀ (st : SrcState) (h : String), dictFind st h = none →
      SourceTracker.source st h = .error (.keyError h)) ∧
    (∀ (st : SrcState) (h : String) (ls : List String), dictFind st h = some ls →
      SourceTracker.source st h = .ok ls) ∧
    (∀ (st : SrcState) (s : Span) (b : Option Int) (a : Int),
      dictFind st s.source_hash = none →
      Span.with_context st s b (some a) = .error (.keyError s.source_hash)) ∧
    (∀ (st : SrcState) (s : Span) (b : Int),
      Span.with_context st s (some b) none =
        .ok { s with context_start := some { line := max 0 (s.start.line - b), col := 0 } }) := by
  refine ⟨?_, ?_, ?_, ?_⟩
  · intro st h hnone; simp [SourceTracker.source, hnone]
  · intro st h ls hsome; simp [SourceTracker.source, hsome]
  · intro st s b a hnone
    cases b <;>
      simp [Span.with_context, SourceTracker.source, hnone, Except.bind]
  · intro st s b; rfl

/-- Closed witness for `lookup_failure_spec`. -/
theorem lookup_failure_spec_witness :
    SourceTracker.source [("k", ["x"])] "h" = .error (.keyError "h") ∧
    SourceTracker.source [("k", ["x"])] "k" = .ok ["x"] ∧
    Span.with_context []
      { start := ⟨1, 1⟩, end_ := ⟨1, 2⟩, source_hash := "h", file := none }
      none (some 1) = .error (.keyError "h") ∧
    Span.with_context []
      { start := ⟨3, 1⟩, end_ := ⟨3, 2⟩, source_hash := "h", file := none }
      (some 1) none =
      .ok { start := ⟨3, 1⟩, end_ := ⟨3, 2⟩, source_hash := "h", file := none,
            context_start := some ⟨2, 0⟩ } := by
  refine ⟨lookup_failure_spec.1 _ _ rfl, lookup_failure_spec.2.1 _ _ _ rfl,
    lookup_failure_spec.2.2.1 _ _ none 1 rfl, ?_⟩
  have := lookup_failure_spec.2.2.2 []
    { start := ⟨3, 1⟩, end_ := ⟨3, 2⟩, source_hash := "h", file := none } 1
  simpa using this

/-- C2: `truncate` is the identity when the span covers at most `n` lines,
and otherwise moves `end` to `Position(start.line + n, 0)` and clears
`context_end`, leaving all other fields unchanged. -/
theorem truncate_spec (s : Span) (n : Int) :
    (s.end_.line - s.start.line ≤ n → s.truncate n = s) ∧
    (s.end_.line - s.start.line > n →
      s.truncate n =
        { s with end_ := { line := s.start.line + n, col := 0 },
                 context_end := none }) := by
  constructor
  · intro h; simp [Span.truncate, not_lt.mpr h]
  · intro h; simp [Span.truncate, h]

/-- Closed witness for `truncate_spec`: one no-op case, one truncation. -/
theorem truncate_spec_witness :
    Span.truncate { start := ⟨1, 1⟩, end_ := ⟨2, 5⟩, source_hash := "h",
                    file := none } 5 =
      { start := ⟨1, 1⟩, end_ := ⟨2, 5⟩, source_hash := "h", file := none } ∧
    Span.truncate { start := ⟨1, 1⟩, end_ := ⟨9, 5⟩, source_hash := "h",
                    file := none, context_end := some ⟨10, 0⟩ } 3 =
      { start := ⟨1, 1⟩, end_ := ⟨4, 0⟩, source_hash := "h", file := none } := by
  constructor
  · exact (truncate_spec _ 5).1 (by decide)
  · have := (truncate_spec
      { start := ⟨1, 1⟩, end_ := ⟨9, 5⟩, source_hash := "h", file := none,
        context_end := some ⟨10, 0⟩ } 3).2 (by decide)
    simpa using this

/-- C3: `with_context` over a registered source with `L` stored lines sets
`context_start = Position(max 0 (start.line - B), 0)` when `before = B` is
given and `context_end = Position(min L (end.line + A), 0)` when
`after = A` is given, keeps `start`, `end`, the source hash, and the file,
and leaves each context bound as it was when the corresponding argument is
omitted. -/
theorem with_context_spec (st : SrcState) (s : Span) (ls : List String)
    (b a : Option Int) (hreg : dictFind st s.source_hash = some ls) :
    Span.with_context st s b a = .ok
      { s with
        context_start := match b with
          | some bb => some { line := max 0 (s.start.line - bb), col := 0 }
          | none => s.context_start,
        context_end := match a with
          | some aa => some { line := min (ls.length : Int) (s.end_.line + aa), col := 0 }
          | none => s.context_end } := by
  cases b <;> cases a <;>
    simp [Span.with_context, SourceTracker.source, hreg, Except.bind,
      pure, Except.pure] <;> rfl

/-- Closed witness for `with_context_spec` on a three-line source. -/
theorem with_context_spec_witness :
    Span.with_context [("h", ["l1", "l2", "l3"])]
      { start := ⟨2, 1⟩, end_ := ⟨2, 4⟩, source_hash := "h", file := none }
      (some 1) (some 5) =
      .ok { start := ⟨2, 1⟩, end_ := ⟨2, 4⟩, source_hash := "h", file := none,
            context_start := some ⟨1, 0⟩, context_end := some ⟨3, 0⟩ } := by
  have := with_context_spec [("h", ["l1", "l2", "l3"])]
    { start := ⟨2, 1⟩, end_ := ⟨2, 4⟩, source_hash := "h", file := none }
    ["l1", "l2", "l3"] (some 1) (some 5) rfl
  simpa using this

/-- C4 counterexample: a Span built from raw 0-indexed coordinates and
then truncated has an `end` position with `col = 0`, so not every Position
produced by the public Span operations has `col ≥ 1`. -/
theorem one_indexed_cex :
    (Span.truncate (Span.from_node 0 0 5 0 "h" none) 2).end_.col = 0 ∧
    ¬(1 ≤ (Span.truncate (Span.from_node 0 0 5 0 "h" none) 2).end_.col) := by
  decide

/-- C4 (amended): construction from raw 0-indexed coordinates (≥ 0) gives
1-indexed `start` and `end` (line ≥ 1, col ≥ 1), and `truncate`,
`extend_to`, and `with_context` never change `start` (and `extend_to`
takes its `end` only from the existing spans); but the positions
`truncate` and `with_context` introduce have `col = 0`, and
`with_context`'s `context_start` line is only bounded below by 0. -/
theorem span_ops_indexing :
    (∀ (l1 c1 l2 c2 : Int) (h : String) (f : Option String),
      0 ≤ l1 → 0 ≤ c1 → 0 ≤ l2 → 0 ≤ c2 →
      (1 ≤ (Span.from_node l1 c1 l2 c2 h f).start.line ∧
       1 ≤ (Span.from_node l1 c1 l2 c2 h f).start.col) ∧
      (1 ≤ (Span.from_node l1 c1 l2 c2 h f).end_.line ∧
       1 ≤ (Span.from_node l1 c1 l2 c2 h f).end_.col)) ∧
    (∀ (s : Span) (n : Int), (s.truncate n).start = s.start ∧
      (s.truncate n = s ∨
        ((s.truncate n).end_.col = 0 ∧ (s.truncate n).context_end = none))) ∧
    (∀ (s o : Span) (b : Bool), (s.extend_to o b).start = s.start ∧
      ((s.extend_to o b).end_ = s.end_ ∨ (s.extend_to o b).end_ = o.end_)) ∧
    (∀ (st : SrcState) (s : Span) (b a : Option Int) (r : Span),
      Span.with_context st s b a = .ok r →
      r.start = s.start ∧ r.end_ = s.end_ ∧
      (∀ p : Position, r.context_start = some p →
        r.context_start = s.context_start ∨ (p.col = 0 ∧ 0 ≤ p.line)) ∧
      (∀ p : Position, r.context_end = some p →
        r.context_end = s.context_end ∨ p.col = 0)) := by
  refine ⟨?_, ?_, ?_, ?_⟩
  · intro l1 c1 l2 c2 h f h1 h2 h3 h4
    simp only [Span.from_node]
    omega
  · intro s n
    by_cases h : s.end_.line - s.start.line > n
    · simp [Span.truncate, h]
    · simp [Span.truncate, h]
  · intro s o b
    cases b <;> simp [Span.extend_to]
  · intro st s b a r hok
    cases b <;> cases a <;>
      simp only [Span.with_context] at hok
    case none.none =>
      cases hok
      simp
    case none.some a =>
      cases hls : SourceTracker.source st s.source_hash with
      | error e => rw [hls] at hok; cases hok
      | ok ls =>
        rw [hls] at hok
        cases hok
        refine ⟨rfl, rfl, ?_, ?_⟩
        · intro p hp; exact .inl rfl
        · intro p hp
          simp at hp
          exact .inr (by simp [← hp])
    case some.none b =>
      cases hok
      refine ⟨rfl, rfl, ?_, ?_⟩
      · intro p hp
        simp at hp
        exact .inr ⟨by simp [← hp], by simp [← hp]⟩
      · intro p hp; exact .inl rfl
    case some.some b a =>
      cases hls : SourceTracker.source st s.source_hash with
      | error e => rw [hls] at hok; cases hok
      | ok ls =>
        rw [hls] at hok
        cases hok
        refine ⟨rfl, rfl, ?_, ?_⟩
        · intro p hp
          simp at hp
          exact .inr ⟨by simp [← hp], by simp [← hp]⟩
        · intro p hp
          simp at hp
          exact .inr (by simp [← hp])

/-- Closed witness for `span_ops_indexing`. -/
theorem span_ops_indexing_witness :
    (1 ≤ (Span.from_node 0 0 1 3 "h" none).start.line ∧
     1 ≤ (Span.from_node 0 0 1 3 "h" none).start.col) ∧
    (1 ≤ (Span.from_node 0 0 1 3 "h" none).end_.line ∧
     1 ≤ (Span.from_node 0 0 1 3 "h" none).end_.col) := by
  exact span_ops_indexing.1 0 0 1 3 "h" none (by decide) (by decide)
    (by decide) (by decide)

/-- C9: `wrap` performs no shape validation: a value outside the supported
shapes (here `None`) is wrapped as a scalar leaf without error — `wrap` is
total by construction — and `unroll` on the resulting tree then raises the
`ValueError("Invalid YAML tree structure")` *MalformedTree* failure. -/
theorem wrap_defers_validation (sp : Span) :
    YamlTree.wrap .vnone sp = .lnone sp ∧
    (YamlTree.wrap .vnone sp).unroll = .error "Invalid YAML tree structure" :=
  ⟨rfl, rfl⟩

theorem YamlMap.get_cons (e : Nat × YamlTree × YamlTree) (m : YamlMap)
    (k : String) :
    YamlMap.get (e :: m) k =
      if e.2.1.valEqStr k then some e.2.2 else YamlMap.get m k := by
  simp only [YamlMap.get, List.filter_cons]
  split <;> simp

theorem YamlMap.get_eq_none (m : YamlMap) (k : String)
    (h : ∀ e ∈ m, e.2.1.valEqStr k = false) : YamlMap.get m k = none := by
  induction m with
  | nil => rfl
  | cons e rest ih =>
    rw [YamlMap.get_cons]
    simp [h e (by simp)]
    exact ih (fun e' he' => h e' (by simp [he']))

theorem YamlMap.get_first (pre : YamlMap) (e : Nat × YamlTree × YamlTree)
    (post : YamlMap) (k : String)
    (hpre : ∀ e' ∈ pre, e'.2.1.valEqStr k = false)
    (he : e.2.1.valEqStr k = true) :
    YamlMap.get (pre ++ e :: post) k = some e.2.2 := by
  induction pre with
  | nil => rw [List.nil_append, YamlMap.get_cons, he]; rfl
  | cons e' rest ih =>
    rw [List.cons_append, YamlMap.get_cons]
    simp [hpre e' (by simp)]
    exact ih (fun x hx => hpre x (by simp [hx]))

/-- C5: a `YamlMap` holding two entries whose keys both have the string
value `"a"` (first mapped to `1`, second to `2`) yields both entries from
`items()` in insertion order while `get "a"` returns the first value; in
general `get k` returns the first entry in insertion order whose key's
string value equals `k`, and `none` when no entry matches. -/
theorem duplicate_key_shadowing :
    (∀ sp1 sp2 sp3 sp4 : Span,
      YamlMap.items [(0, .lstr "a" sp1, .lint 1 sp2), (1, .lstr "a" sp3, .lint 2 sp4)] =
        [(.lstr "a" sp1, .lint 1 sp2), (.lstr "a" sp3, .lint 2 sp4)] ∧
      (YamlMap.items [(0, .lstr "a" sp1, .lint 1 sp2), (1, .lstr "a" sp3, .lint 2 sp4)]).length = 2 ∧
      YamlMap.get [(0, .lstr "a" sp1, .lint 1 sp2), (1, .lstr "a" sp3, .lint 2 sp4)] "a" =
        some (.lint 1 sp2)) ∧
    (∀ (pre : YamlMap) (e : Nat × YamlTree × YamlTree) (post : YamlMap) (k : String),
      (∀ e' ∈ pre, e'.2.1.valEqStr k = false) → e.2.1.valEqStr k = true →
      YamlMap.get (pre ++ e :: post) k = some e.2.2) ∧
    (∀ (m : YamlMap) (k : String), (∀ e ∈ m, e.2.1.valEqStr k = false) →
      YamlMap.get m k = none) := by
  refine ⟨?_, YamlMap.get_first, YamlMap.get_eq_none⟩
  intro sp1 sp2 sp3 sp4
  refine ⟨rfl, rfl, ?_⟩
  rw [YamlMap.get_cons]
  rfl

/-- Closed witness for `duplicate_key_shadowing` (the general first-match
and no-match parts applied at concrete maps; the concrete duplicate-key
part at a concrete span). -/
theorem duplicate_key_shadowing_witness :
    YamlMap.get
      [(0, .lstr "a" { start := ⟨1, 1⟩, end_ := ⟨1, 2⟩, source_hash := "h", file := none },
        .lint 1 { start := ⟨1, 4⟩, end_ := ⟨1, 5⟩, source_hash := "h", file := none })]
      "a" = some (.lint 1 { start := ⟨1, 4⟩, end_ := ⟨1, 5⟩, source_hash := "h", file := none }) ∧
    YamlMap.get
      [(0, .lstr "b" { start := ⟨1, 1⟩, end_ := ⟨1, 2⟩, source_hash := "h", file := none },
        .lint 1 { start := ⟨1, 4⟩, end_ := ⟨1, 5⟩, source_hash := "h", file := none })]
      "a" = none := by
  constructor
  · exact duplicate_key_shadowing.2.1 [] _ [] "a" (by simp) rfl
  · exact duplicate_key_shadowing.2.2 _ "a" (by intro e he; simp at he; simp [he, YamlTree.valEqStr])

theorem YamlMap.setitem_fresh (m : YamlMap) (i : Nat) (k v : YamlTree)
    (hf : ∀ e ∈ m, e.1 ≠ i) : YamlMap.setitem m i k v = m ++ [(i, k, v)] := by
  induction m with
  | nil => rfl
  | cons e rest ih =>
    have : (e.1 == i) = false := by simp [hf e (by simp)]
    simp [YamlMap.setitem, this]
    exact ih (fun x hx => hf x (by simp [hx]))

theorem YamlMap.get_append_of_isSome (m m' : YamlMap) (k : String)
    (h : (YamlMap.get m k).isSome) :
    YamlMap.get (m ++ m') k = YamlMap.get m k := by
  induction m with
  | nil => simp [YamlMap.get] at h
  | cons e rest ih =>
    rw [List.cons_append, YamlMap.get_cons, YamlMap.get_cons]
    rw [YamlMap.get_cons] at h
    by_cases he : e.2.1.valEqStr k
    · simp [he]
    · simp [he] at h ⊢
      exact ih h

theorem YamlMap.get_isSome_of_match (m : YamlMap) (k : String)
    (e : Nat × YamlTree × YamlTree) (he : e ∈ m)
    (hk : e.2.1.valEqStr k = true) : (YamlMap.get m k).isSome := by
  induction m with
  | nil => simp at he
  | cons e' rest ih =>
    rw [YamlMap.get_cons]
    by_cases h' : e'.2.1.valEqStr k
    · simp [h']
    · simp [h']
      rcases List.mem_cons.mp he with h | h
      · exact absurd hk (by simp [← h] at h' ⊢; exact h')
      · exact ih h

/-- C8: on a map already containing an entry whose key's string value is
`key`, direct assignment through a freshly constructed key tree whose
string value also equals `key` appends a new entry rather than
overwriting: afterwards both entries appear in `items()` and `get key`
still returns the value of the original first matching entry. Freshness of
the key tree is its object identity being distinct from every existing
key's. -/
theorem setitem_appends (m : YamlMap) (i : Nat) (k v : YamlTree)
    (key : String) (hfresh : ∀ e ∈ m, e.1 ≠ i)
    (hmatch : ∃ e ∈ m, e.2.1.valEqStr key = true)
    (_hk : k.valEqStr key = true) :
    YamlMap.items (YamlMap.setitem m i k v) = YamlMap.items m ++ [(k, v)] ∧
    YamlMap.get (YamlMap.setitem m i k v) key = YamlMap.get m key := by
  obtain ⟨e, he, hke⟩ := hmatch
  rw [YamlMap.setitem_fresh m i k v hfresh]
  constructor
  · simp [YamlMap.items]
  · exact YamlMap.get_append_of_isSome m _ key
      (YamlMap.get_isSome_of_match m key e he hke)

/-- Closed witness for `setitem_appends`. -/
theorem setitem_appends_witness :
    YamlMap.items
      (YamlMap.setitem
        [(0, .lstr "a" { start := ⟨1, 1⟩, end_ := ⟨1, 2⟩, source_hash := "h", file := none },
          .lint 1 { start := ⟨1, 4⟩, end_ := ⟨1, 5⟩, source_hash := "h", file := none })]
        1 (.lstr "a" { start := ⟨2, 1⟩, end_ := ⟨2, 2⟩, source_hash := "h", file := none })
        (.lint 2 { start := ⟨2, 4⟩, end_ := ⟨2, 5⟩, source_hash := "h", file := none })) =
      [(.lstr "a" { start := ⟨1, 1⟩, end_ := ⟨1, 2⟩, source_hash := "h", file := none },
        .lint 1 { start := ⟨1, 4⟩, end_ := ⟨1, 5⟩, source_hash := "h", file := none }),
       (.lstr "a" { start := ⟨2, 1⟩, end_ := ⟨2, 2⟩, source_hash := "h", file := none },
        .lint 2 { start := ⟨2, 4⟩, end_ := ⟨2, 5⟩, source_hash := "h", file := none })] ∧
    YamlMap.get
      (YamlMap.setitem
        [(0, .lstr "a" { start := ⟨1, 1⟩, end_ := ⟨1, 2⟩, source_hash := "h", file := none },
          .lint 1 { start := ⟨1, 4⟩, end_ := ⟨1, 5⟩, source_hash := "h", file := none })]
        1 (.lstr "a" { start := ⟨2, 1⟩, end_ := ⟨2, 2⟩, source_hash := "h", file := none })
        (.lint 2 { start := ⟨2, 4⟩, end_ := ⟨2, 5⟩, source_hash := "h", file := none })) "a" =
      YamlMap.get
        [(0, .lstr "a" { start := ⟨1, 1⟩, end_ := ⟨1, 2⟩, source_hash := "h", file := none },
          .lint 1 { start := ⟨1, 4⟩, end_ := ⟨1, 5⟩, source_hash := "h", file := none })] "a" := by
  refine setitem_appends _ 1 _ _ "a" ?_ ?_ rfl
  · intro e he; simp at he; simp [he]
  · exact ⟨(0, .lstr "a" { start := ⟨1, 1⟩, end_ := ⟨1, 2⟩, source_hash := "h", file := none },
      .lint 1 { start := ⟨1, 4⟩, end_ := ⟨1, 5⟩, source_hash := "h", file := none }),
      by simp, rfl⟩

/-- C10: `unroll` on a mapping node passes every key through Python
`str(...)`: a singleton mapping whose key tree unrolls to `ku` and whose
value tree unrolls to `u` unrolls to the plain dictionary
`[(pyStr ku, u)]`; `str` of the integer `7` is `"7"` and `str` of a string
is the string itself. -/
theorem unroll_key_str (i : Nat) (k v : YamlTree) (sp : Span)
    (ku u : PyValue) (hk : k.unroll = .ok ku) (hv : v.unroll = .ok u) :
    (YamlTree.lmap [(i, k, v)] sp).unroll = .ok (.vdict [(pyStr ku, u)]) ∧
    pyStr (.vint 7) = "7" ∧ (∀ s : String, pyStr (.vstr s) = s) := by
  refine ⟨?_, rfl, fun s => rfl⟩
  rw [YamlTree.unroll]
  rw [unrollPairs, hk, hv, unrollPairs]
  rfl

/-- Closed witness for `unroll_key_str`: an integer key `7` becomes the
plain key `"7"`. -/
theorem unroll_key_str_witness :
    (YamlTree.lmap
      [(0, .lint 7 { start := ⟨1, 1⟩, end_ := ⟨1, 2⟩, source_hash := "h", file := none },
        .lstr "x" { start := ⟨1, 4⟩, end_ := ⟨1, 5⟩, source_hash := "h", file := none })]
      { start := ⟨1, 1⟩, end_ := ⟨1, 5⟩, source_hash := "h", file := none }).unroll =
      .ok (.vdict [("7", .vstr "x")]) := by
  exact (unroll_key_str 0
    (.lint 7 { start := ⟨1, 1⟩, end_ := ⟨1, 2⟩, source_hash := "h", file := none })
    (.lstr "x" { start := ⟨1, 4⟩, end_ := ⟨1, 5⟩, source_hash := "h", file := none })
    { start := ⟨1, 1⟩, end_ := ⟨1, 5⟩, source_hash := "h", file := none }
    (.vint 7) (.vstr "x") rfl rfl).1

theorem hasKey_false_iff (l : List String) (k : String) :
    hasKey l k = false ↔ ∀ x ∈ l, x ≠ k := by
  induction l with
  | nil => simp [hasKey]
  | cons x xs ih => simp [hasKey, ih]

theorem dictInsert_fresh (d : List (String × PyValue)) (k : String)
    (v : PyValue) (h : ∀ p ∈ d, p.1 ≠ k) :
    dictInsert d k v = d ++ [(k, v)] := by
  induction d with
  | nil => rfl
  | cons p rest ih =>
    have hp : (p.1 == k) = false := by simp [h p (by simp)]
    simp [dictInsert, hp]
    exact ih (fun q hq => h q (by simp [hq]))

theorem foldl_dictInsert (xs : List (String × PyValue))
    (acc : List (String × PyValue))
    (hdisj : ∀ p ∈ acc, ∀ q ∈ xs, p.1 ≠ q.1)
    (hnd : nodupKeys (xs.map (fun p => p.1)) = true) :
    xs.foldl (fun d p => dictInsert d p.1 p.2) acc = acc ++ xs := by
  induction xs generalizing acc with
  | nil => simp
  | cons q rest ih =>
    have hfresh : ∀ p ∈ acc, p.1 ≠ q.1 :=
      fun p hp => hdisj p hp q (by simp)
    have hnd' : nodupKeys (rest.map (fun p => p.1)) = true := by
      simp [nodupKeys, Bool.and_eq_true] at hnd; exact hnd.2
    have hqrest : ∀ x ∈ rest, q.1 ≠ x.1 := by
      have hkey : hasKey (rest.map (fun p => p.1)) q.1 = false := by
        simp [nodupKeys, Bool.and_eq_true] at hnd
        exact hnd.1
      intro x hx
      exact Ne.symm ((hasKey_false_iff _ _).mp hkey x.1 (by
        exact List.mem_map.mpr ⟨x, hx, rfl⟩))
    rw [List.foldl_cons, dictInsert_fresh acc q.1 q.2 hfresh]
    rw [ih (acc ++ [(q.1, q.2)]) ?_ hnd']
    · simp
    · intro p hp r hr
      rcases List.mem_append.mp hp with h | h
      · exact hdisj p h r (by simp [hr])
      · simp at h
        rw [h]
        exact hqrest r hr

mutual

theorem unroll_wrap_plain : ∀ (v : PyValue) (sp : Span), v.isPlain = true →
    (YamlTree.wrap v sp).unroll = .ok v
  | .vstr _, _, _ => rfl
  | .vint _, _, _ => rfl
  | .vnone, _, h => by simp [PyValue.isPlain] at h
  | .vlist xs, sp, h => by
    have hxs : plainList xs = true := by simpa [PyValue.isPlain] using h
    rw [YamlTree.wrap, YamlTree.unroll, unrollList_wrapList xs sp hxs]
    rfl
  | .vdict xs, sp, h => by
    have hnd : nodupKeys (xs.map (fun p => p.1)) = true := by
      simp [PyValue.isPlain, Bool.and_eq_true] at h; exact h.1
    have hp : plainPairs xs = true := by
      simp [PyValue.isPlain, Bool.and_eq_true] at h; exact h.2
    rw [YamlTree.wrap, YamlTree.unroll, unrollPairs_wrapPairs xs sp 0 hp]
    show Except.ok (PyValue.vdict (xs.foldl (fun d p => dictInsert d p.1 p.2) [])) =
      Except.ok (PyValue.vdict xs)
    rw [foldl_dictInsert xs [] (by simp) hnd]
    simp

theorem unrollList_wrapList : ∀ (xs : List PyValue) (sp : Span),
    plainList xs = true → unrollList (wrapList xs sp) = .ok xs
  | [], _, _ => rfl
  | x :: xs, sp, h => by
    have h1 : x.isPlain = true := by
      simp [plainList, Bool.and_eq_true] at h; exact h.1
    have h2 : plainList xs = true := by
      simp [plainList, Bool.and_eq_true] at h; exact h.2
    rw [wrapList, unrollList, unroll_wrap_plain x sp h1,
      unrollList_wrapList xs sp h2]
    rfl

theorem unrollPairs_wrapPairs : ∀ (xs : List (String × PyValue)) (sp : Span)
    (i : Nat), plainPairs xs = true →
    unrollPairs (wrapPairs xs sp i) = .ok xs
  | [], _, _, _ => rfl
  | (k, v) :: rest, sp, i, h => by
    have h1 : v.isPlain = true := by
      simp [plainPairs, Bool.and_eq_true] at h; exact h.1
    have h2 : plainPairs rest = true := by
      simp [plainPairs, Bool.and_eq_true] at h; exact h.2
    rw [wrapPairs, unrollPairs, unroll_wrap_plain v sp h1,
      unrollPairs_wrapPairs rest sp (i + 1) h2]
    rfl

end

/-- C1: for every plain nested value built only from the supported shapes
(strings, integers, lists, and string-keyed mappings, arbitrarily nested)
and every span, `unroll (wrap v span) = v`. -/
theorem wrap_unroll_roundtrip (v : PyValue) (sp : Span)
    (h : v.isPlain = true) : (YamlTree.wrap v sp).unroll = .ok v :=
  unroll_wrap_plain v sp h

/-- Closed witness for `wrap_unroll_roundtrip` on a nested plain value. -/
theorem wrap_unroll_roundtrip_witness :
    PyValue.isPlain (.vdict [("a", .vlist [.vstr "x", .vint 3]), ("b", .vstr "y")]) = true ∧
    (YamlTree.wrap (.vdict [("a", .vlist [.vstr "x", .vint 3]), ("b", .vstr "y")])
      { start := ⟨1, 1⟩, end_ := ⟨1, 5⟩, source_hash := "h", file := none }).unroll =
      .ok (.vdict [("a", .vlist [.vstr "x", .vint 3]), ("b", .vstr "y")]) :=
  ⟨rfl, wrap_unroll_roundtrip _
    { start := ⟨1, 1⟩, end_ := ⟨1, 5⟩, source_hash := "h", file := none } rfl⟩

end RuleLang
